import Mathlib

/-!
Verification of the jellyfin-renamer core: a shallow embedding of the
classification, grouping, layout-planning and transcode-coordination code
(src/core/tv_parser.py, movie_parser.py, tv_organizer.py, movie_organizer.py,
file_processor.py), with theorems settling the frozen specification claims.

Python strings are modelled as Lean String (with explicit List Char
manipulation mirroring str.split and os.path.splitext); Python truthiness of
optional integers and strings is modelled explicitly (0, "" and empty lists
are falsy); the opaque guessit capability is an injectable function returning
Except (exceptions are Except.error, mirroring Python exceptions); the
destination filesystem observed by os.path.exists at plan time is a list of
paths; file contents are abstract naturals.
-/

namespace JellyfinRenamer

/-- Python f-string formatting of a nonnegative integer with 02d: zero-padded
to width two. -/
def pad2 (n : Nat) : String :=
  if n < 10 then "0" ++ toString n else toString n

/-- Does the pattern occur as a leading run of the list (Python str.startswith
on the suffix under scan)? -/
def leadsWith : List Char → List Char → Bool
  | [], _ => true
  | _ :: _, [] => false
  | p :: ps, c :: cs => p = c && leadsWith ps cs

/-- Python substring containment: needle in haystack. -/
def strContains (s pat : String) : Bool :=
  s.data.tails.any (leadsWith pat.data)

/-- Python truthiness of an optional integer: absent and 0 are falsy. -/
def optNatTruthy : Option Nat → Bool
  | none => false
  | some n => n != 0

/-- Python truthiness of an optional string: absent and "" are falsy. -/
def optStrTruthy : Option String → Bool
  | none => false
  | some s => s != ""

/-- os.path.join for a relative second component: a/b. -/
def pathJoin (a b : String) : String :=
  if a = "" then b else a ++ "/" ++ b

/-- Python str.split(".") on the character list of a filename: splits at every
dot, keeping empty segments; the empty string yields one empty segment. -/
def pySplitDot : List Char → List (List Char)
  | [] => [[]]
  | c :: cs =>
    match pySplitDot cs with
    | [] => [[]]
    | s :: rest => if c = '.' then [] :: s :: rest else (c :: s) :: rest

/-- Python ".".join on a list of segments. -/
def joinDot : List (List Char) → List Char
  | [] => []
  | [s] => s
  | s :: t :: rest => s ++ '.' :: joinDot (t :: rest)

/-- src/core/tv_parser.py get_filename_for_parsing: split on dots, rejoin all
leading segments, re-append the final segment as the extension. -/
def get_filename_for_parsing (filename : String) : String :=
  let parts := pySplitDot filename.data
  if parts.length < 2 then filename
  else String.mk (joinDot parts.dropLast ++ '.' :: parts.getLastD [])

/-- src/core/tv_parser.py get_base_filename_without_ext: everything before the
last dot segment. -/
def get_base_filename_without_ext (filename : String) : String :=
  let parts := pySplitDot filename.data
  if parts.length < 2 then filename
  else String.mk (joinDot parts.dropLast)

/-- src/core/tv_parser.py get_real_extension: the last dot segment with a
leading dot, or "" when the name has no dot. -/
def get_real_extension (filename : String) : String :=
  let parts := pySplitDot filename.data
  if parts.length < 2 then ""
  else String.mk ('.' :: parts.getLastD [])

/-- The guessit episode field: absent, a bare integer, or a list of
integers. -/
inductive EpisodeValue where
  | absent
  | int (n : Nat)
  | list (l : List Nat)
deriving DecidableEq

/-- src/core/tv_parser.py normalize_episode_range. The Python input is
None, an int, or a list; `if not episode` makes None, 0 and [] all map to
None. The output is None, an int, or a range string. -/
def normalize_episode_range : EpisodeValue → Option (Nat ⊕ String)
  | .absent => none
  | .int n => if n = 0 then none else some (.inl n)
  | .list l =>
    if l.length = 0 then none
    else if l.length = 1 then some (.inl (l.headD 0))
    else if l.length = 2 then
      some (.inr (pad2 (l.headD 0) ++ "-E" ++ pad2 (l.getD 1 0)))
    else
      some (.inr (pad2 (l.headD 0) ++ "-E" ++ pad2 (l.getLastD 0)))

/-- The guessit `other` field: a single value or a list of values (each
rendered to a string by Python str). -/
inductive OtherVal where
  | one (s : String)
  | many (l : List String)
deriving DecidableEq

/-- The structured best-effort guess returned by the opaque guessit
capability; every field may be absent. -/
structure GuessInfo where
  title : Option String
  year : Option Nat
  season : Option Nat
  episode : EpisodeValue
  screen_size : Option String
  part : Option Nat
  other : Option OtherVal
deriving DecidableEq

/-- A Python exception escaping the guessit call. -/
inductive GuessErr where
  | err (msg : String)
deriving DecidableEq

/-- The injectable opaque guessing capability: may return a guess or raise. -/
def Guesser : Type := String → Except GuessErr GuessInfo

/-- A guess with every field absent. -/
def emptyInfo : GuessInfo := ⟨none, none, none, .absent, none, none, none⟩

/-- src/core/tv_parser.py detect_extra_type inner loop over the normalized
tag list: first tag containing a known token (case-sensitive substring on its
str rendering) picks the category. -/
def extraTagScan : List String → Option String
  | [] => none
  | o :: rest =>
    if strContains o "Trailer" then some "trailers"
    else if strContains o "BehindTheScenes" || strContains o "Featurette" then
      some "behind the scenes"
    else if strContains o "Interview" then some "interviews"
    else if strContains o "Deleted" then some "deleted scenes"
    else extraTagScan rest

/-- src/core/tv_parser.py detect_extra_type: absent other field means no
extra; a single value is wrapped into a one-element list before the scan. -/
def detect_extra_type (other : Option OtherVal) : Option String :=
  match other with
  | none => none
  | some (.one s) => extraTagScan [s]
  | some (.many l) => extraTagScan l

/-- Python `needle in value` where value is a string (substring test) or a
list (exact membership), as used on info["other"] in
src/core/movie_parser.py. -/
def pyInOther (needle : String) : OtherVal → Bool
  | .one s => strContains s needle
  | .many l => l.contains needle

/-- The inline extra-type logic of src/core/movie_parser.py parse_movie_info:
only Trailer and BehindTheScenes/Featurette are recognized. -/
def movieExtraFromOther (other : Option OtherVal) : Option String :=
  match other with
  | none => none
  | some v =>
    if pyInOther "Trailer" v then some "trailers"
    else if pyInOther "BehindTheScenes" v || pyInOther "Featurette" v then
      some "behind the scenes"
    else none

/-- A separator character of the part fallback regexes: [.\s-]. -/
def isSepChar (c : Char) : Bool := c = '.' || c.isWhitespace || c = '-'

/-- Maximal leading digit run of a character list. -/
def takeDigits (l : List Char) : List Char := l.takeWhile Char.isDigit

/-- Numeric value of a digit run (Python int of the captured group). -/
def digitsVal (l : List Char) : Nat :=
  l.foldl (fun a c => a * 10 + (c.toNat - 48)) 0

/-- One anchored attempt of a part fallback regex
[.\s-]kw[.\s-]?(\d+) (or without the optional separator when allowSep is
false) at the head of the scanned suffix. -/
def partAt (kw : List Char) (allowSep : Bool) (l : List Char) : Option Nat :=
  match l with
  | [] => none
  | c :: rest =>
    if isSepChar c && leadsWith kw rest then
      let past := rest.drop kw.length
      let body :=
        match past with
        | [] => []
        | d :: ds => if allowSep && isSepChar d then ds else past
      let digits := takeDigits body
      if digits.isEmpty then none else some (digitsVal digits)
    else none

/-- re.search for one part pattern: leftmost matching position wins. -/
def searchPart (kw : List Char) (allowSep : Bool) (l : List Char) : Option Nat :=
  l.tails.findSome? (partAt kw allowSep)

/-- src/core/tv_parser.py detect_multi_part: the guessit part field when
present, else the ordered fallback patterns part/pt/p (each tried over the
whole lowercased filename) with the first matching pattern returning its
captured integer. -/
def detect_multi_part (filename : String) (info : GuessInfo) : Option Nat :=
  match info.part with
  | some p => some p
  | none =>
    let low := filename.data.map Char.toLower
    match searchPart "part".data true low with
    | some n => some n
    | none =>
      match searchPart "pt".data true low with
      | some n => some n
      | none => searchPart "p".data false low

/-- Result tuple of src/core/tv_parser.py parse_tv_info. -/
structure TvParsed where
  series : String
  season : Option Nat
  episodes : Option (Nat ⊕ String)
  year : Option Nat
  resolution : Option String
  part : Option Nat
  extra_type : Option String
deriving DecidableEq

/-- src/core/tv_parser.py parse_tv_info: normalizes the filename, calls the
guesser (an exception propagates: there is no try/except in the source),
and derives the tuple; the title defaults to the filename without its last
extension. -/
def parse_tv_info (g : Guesser) (filename : String) : Except GuessErr TvParsed :=
  let filename_for_parsing := get_filename_for_parsing filename
  match g filename_for_parsing with
  | .error e => .error e
  | .ok info =>
    .ok ⟨info.title.getD (get_base_filename_without_ext filename),
         info.season,
         normalize_episode_range info.episode,
         info.year,
         info.screen_size,
         detect_multi_part filename_for_parsing info,
         detect_extra_type info.other⟩

/-- os.path.splitext on the final path component: leading dots of the
component never start an extension. Returns (root, ext) of the component. -/
def splitextBase (base : List Char) : List Char × List Char :=
  let lead := base.takeWhile (· = '.')
  let rest := base.drop lead.length
  let afterRev := rest.reverse.takeWhile (· ≠ '.')
  if afterRev.length = rest.length then (base, [])
  else
    (lead ++ rest.take (rest.length - afterRev.length - 1),
     '.' :: afterRev.reverse)

/-- os.path.splitext: split the last extension off a path, leaving directory
components untouched. -/
def splitext (p : String) : String × String :=
  let l := p.data
  let baseRev := l.reverse.takeWhile (· ≠ '/')
  let dir := l.take (l.length - baseRev.length)
  let be := splitextBase baseRev.reverse
  (String.mk (dir ++ be.1), String.mk be.2)

/-- Result tuple of src/core/movie_parser.py parse_movie_info. -/
structure MovieParsed where
  title : String
  year : Option Nat
  resolution : Option String
  part : Option Nat
  extra_type : Option String
deriving DecidableEq

/-- src/core/movie_parser.py parse_movie_info: calls the guesser on the raw
filename (an exception propagates: there is no try/except in the source);
title defaults to os.path.splitext(filename)[0]; the extra type uses the
inline two-category logic. -/
def parse_movie_info (g : Guesser) (filename : String) :
    Except GuessErr MovieParsed :=
  match g filename with
  | .error e => .error e
  | .ok info =>
    .ok ⟨info.title.getD (splitext filename).1,
         info.year,
         info.screen_size,
         info.part,
         movieExtraFromOther info.other⟩

/-- Is the character s or S (the character class [sS] of the fallback
patterns)? -/
def isSChar (c : Char) : Bool := c = 's' || c = 'S'

/-- Is the character e or E (the character class [eE])? -/
def isEChar (c : Char) : Bool := c = 'e' || c = 'E'

/-- Anchored match of [sS]\d{1,2}[eE]\d{1,2} at the head of a suffix: for
re.search existence, either one or two digits follow the s before the e. -/
def seAt : List Char → Bool
  | s :: d1 :: e :: d2 :: rest =>
    isSChar s && d1.isDigit &&
      ((isEChar e && d2.isDigit) ||
       (e.isDigit && isEChar d2 && (rest.headD 'x').isDigit))
  | _ => false

/-- \s*\d+ after a keyword: any run of whitespace then at least one digit. -/
def wsThenDigit : List Char → Bool
  | [] => false
  | c :: rest => if c.isWhitespace then wsThenDigit rest else c.isDigit

/-- Anchored match of [sS]eason\s*\d+ at the head of a suffix; only the
leading letter is case-insensitive in the source pattern. -/
def seasonAt : List Char → Bool
  | s :: e :: a :: s2 :: o :: n :: rest =>
    isSChar s && e = 'e' && a = 'a' && s2 = 's' && o = 'o' && n = 'n' &&
      wsThenDigit rest
  | _ => false

/-- Anchored match of [eE]pisode\s*\d+ at the head of a suffix; only the
leading letter is case-insensitive in the source pattern. -/
def episodeAt : List Char → Bool
  | e :: p :: i :: s :: o :: d :: e2 :: rest =>
    isEChar e && p = 'p' && i = 'i' && s = 's' && o = 'o' && d = 'd' &&
      e2 = 'e' && wsThenDigit rest
  | _ => false

/-- re.search over the three tv fallback patterns of
src/core/tv_parser.py detect_content_type. -/
def matchesTvPattern (filename : String) : Bool :=
  filename.data.tails.any (fun t => seAt t || seasonAt t || episodeAt t)

/-- Is the guessit episode field absent (Python is None)? -/
def epIsAbsent : EpisodeValue → Bool
  | .absent => true
  | _ => false

/-- src/core/tv_parser.py detect_content_type: tv when the guess reports a
season or episode (is not None), else tv when a fallback pattern matches the
filename, else movie; a guesser exception propagates. -/
def detect_content_type (g : Guesser) (filename : String) :
    Except GuessErr String :=
  match g filename with
  | .error e => .error e
  | .ok info =>
    if info.season.isSome || !(epIsAbsent info.episode) then .ok "tv"
    else if matchesTvPattern filename then .ok "tv"
    else .ok "movie"

/-- One scanned series file as stored by group_files_by_series in
src/core/tv_organizer.py (the file_info dict). -/
structure TvFileInfo where
  path : String
  file : String
  series : String
  season : Nat
  episodes : Option (Nat ⊕ String)
  year : Option Nat
  resolution : Option String
  part : Option Nat
  extra_type : Option String
deriving DecidableEq

/-- Insertion-ordered season buckets of one series. -/
abbrev SeasonGroups := List (Nat × List TvFileInfo)

/-- Insertion-ordered series buckets (Python dicts preserve insertion
order). -/
abbrev SeriesGroups := List (String × SeasonGroups)

/-- Append a value to a keyed bucket, creating the bucket at the end when the
key is new (defaultdict(list) appending). -/
def appendAssoc (l : SeasonGroups) (k : Nat) (v : TvFileInfo) : SeasonGroups :=
  match l with
  | [] => [(k, [v])]
  | (k2, vs) :: rest =>
    if k2 = k then (k2, vs ++ [v]) :: rest
    else (k2, vs) :: appendAssoc rest k v

/-- Append a file into the nested series → season → list structure. -/
def seriesAppend (groups : SeriesGroups) (sk : String) (sn : Nat)
    (fi : TvFileInfo) : SeriesGroups :=
  match groups with
  | [] => [(sk, [(sn, [fi])])]
  | (k, seasons) :: rest =>
    if k = sk then (k, appendAssoc seasons sn fi) :: rest
    else (k, seasons) :: seriesAppend rest sk sn fi

/-- src/core/tv_organizer.py group_files_by_series: parse each (root, file)
pair, build the series key (year appended when truthy), default the season to
1 when parse returned None, and bucket in scan order. A parse exception
propagates. -/
def group_files_by_series (g : Guesser) (all_files : List (String × String)) :
    Except GuessErr SeriesGroups :=
  all_files.foldlM (fun groups rf => do
    let p ← parse_tv_info g rf.2
    let series_key :=
      p.series ++
        (if optNatTruthy p.year then " (" ++ toString (p.year.getD 0) ++ ")"
         else "")
    let season := p.season.getD 1
    let fi : TvFileInfo :=
      ⟨pathJoin rf.1 rf.2, rf.2, p.series, season, p.episodes, p.year,
       p.resolution, p.part, p.extra_type⟩
    pure (seriesAppend groups series_key season fi)) []

/-- series_key.split(" (")[0]: everything before the first " (". -/
def seriesNamePart : List Char → List Char
  | [] => []
  | c :: rest =>
    if leadsWith [' ', '('] (c :: rest) then []
    else c :: seriesNamePart rest

/-- src/core/tv_organizer.py generate_episode_filename: series name is the
key before any " (", then SnnEmm, optional Part, optional resolution, and the
real (last-segment) extension. Range designators always contain -E, so the
isinstance branch reduces to prefixing E; Python truthiness of the episode
field makes 0 and "" fall back to E01. -/
def generate_episode_filename (fi : TvFileInfo) (series_key : String)
    (season_num : Nat) : String :=
  let series_name := String.mk (seriesNamePart series_key.data)
  let season_str := "S" ++ pad2 season_num
  let episode_str :=
    match fi.episodes with
    | none => "E01"
    | some (.inl n) => if n = 0 then "E01" else "E" ++ pad2 n
    | some (.inr s) => if s = "" then "E01" else "E" ++ s
  let part_str :=
    match fi.part with
    | none => ""
    | some p => if p = 0 then "" else " Part " ++ toString p
  let resolution_str :=
    match fi.resolution with
    | none => ""
    | some r => if r = "" then "" else " - " ++ r
  let ext := get_real_extension fi.file
  series_name ++ " " ++ season_str ++ episode_str ++ part_str ++
    resolution_str ++ ext

/-- Does the observed destination filesystem contain the path
(os.path.exists at plan time)? -/
def fsHas (fs : List String) (p : String) : Bool := fs.contains p

/-- The i-th collision candidate f"{base}_{counter}{ext}" of the suffix
search, counter = i + 1. -/
def dupCand (target_path : String) (i : Nat) : String :=
  (splitext target_path).1 ++ "_" ++ toString (i + 1) ++
    (splitext target_path).2

/-- One probe of the suffix-search loop: the candidate when it is free on the
observed filesystem, none (keep counting) when it exists. -/
def dupProbe (fs : List String) (target_path : String) (i : Nat) :
    Option String :=
  if fsHas fs (dupCand target_path i) then none
  else some (dupCand target_path i)

/-- src/core/tv_organizer.py handle_duplicate_files (the identical inline
loop also appears in movie prepare_file_operations): when the target exists,
append _counter before the extension, counting up from 1, until a free path
is found. The search range fs.length + 1 always suffices for the finite
observed filesystem; the final fallback branch is unreachable (proved below:
the candidates are pairwise distinct, so not all fs.length + 1 of them can
exist in fs). -/
def handle_duplicate_files (fs : List String) (target_path : String) : String :=
  if !(fsHas fs target_path) then target_path
  else
    match (List.range (fs.length + 1)).findSome? (dupProbe fs target_path) with
    | some cand => cand
    | none => target_path

/-- The accumulated (all_main_files, all_extra_files) pair of the tv
planner. -/
abbrev TvPlan := List (TvFileInfo × String) × List (TvFileInfo × String)

/-- One planned tv main-file entry: target path from the generated episode
filename under the season folder, disambiguated against the observed disk. -/
def tvMainEntry (fs : List String) (season_folder series_key : String)
    (sn : Nat) (fi : TvFileInfo) : TvFileInfo × String :=
  (fi, handle_duplicate_files fs
        (pathJoin season_folder (generate_episode_filename fi series_key sn)))

/-- One planned tv extra entry: the original filename under the
extra-category subfolder of the season folder, disambiguated against the
observed disk. -/
def tvExtraEntry (fs : List String) (season_folder : String)
    (fi : TvFileInfo) : TvFileInfo × String :=
  (fi, handle_duplicate_files fs
        (pathJoin (pathJoin season_folder (fi.extra_type.getD "")) fi.file))

/-- The per-season body of prepare_tv_operations: split the season files into
mains (falsy extra_type) and extras, then append planned entries in scan
order. -/
def tvSeasonStep (fs : List String) (series_key series_folder : String)
    (acc : TvPlan) (sg : Nat × List TvFileInfo) : TvPlan :=
  let season_folder := pathJoin series_folder ("Season " ++ pad2 sg.1)
  let mains := sg.2.filter (fun f => !(optStrTruthy f.extra_type))
  let extras := sg.2.filter (fun f => optStrTruthy f.extra_type)
  let acc2 := mains.foldl
    (fun a fi => (a.1 ++ [tvMainEntry fs season_folder series_key sg.1 fi], a.2))
    acc
  extras.foldl
    (fun a fi => (a.1, a.2 ++ [tvExtraEntry fs season_folder fi])) acc2

/-- src/core/tv_organizer.py prepare_tv_operations: walk series then seasons
in insertion order, producing the planned main and extra entry lists. The
observed filesystem fs is the plan-time os.path.exists view; planning creates
directories only, so fs is unchanged throughout. -/
def prepare_tv_operations (groups : SeriesGroups) (target_dir : String)
    (fs : List String) : TvPlan :=
  groups.foldl
    (fun acc g => g.2.foldl (tvSeasonStep fs g.1 (pathJoin target_dir g.1)) acc)
    ([], [])

/-- One scanned movie file as stored by group_files_by_movie in
src/core/movie_organizer.py. -/
structure MovieFileInfo where
  path : String
  file : String
  resolution : Option String
  part : Option Nat
  extra_type : Option String
deriving DecidableEq

/-- Insertion-ordered movie buckets keyed by title+year string. -/
abbrev MovieGroups := List (String × List MovieFileInfo)

/-- The accumulated (all_main_files, all_extra_files) pair of the movie
planner. -/
abbrev MoviePlan := List (MovieFileInfo × String) × List (MovieFileInfo × String)

/-- Append a movie file to its keyed bucket, creating the bucket at the end
when the key is new. -/
def movieAppend (l : MovieGroups) (k : String) (v : MovieFileInfo) :
    MovieGroups :=
  match l with
  | [] => [(k, [v])]
  | (k2, vs) :: rest =>
    if k2 = k then (k2, vs ++ [v]) :: rest
    else (k2, vs) :: movieAppend rest k v

/-- src/core/movie_organizer.py group_files_by_movie: parse each file and
bucket under the key title + (year or "") in scan order. A parse exception
propagates. -/
def group_files_by_movie (g : Guesser) (all_files : List (String × String)) :
    Except GuessErr MovieGroups :=
  all_files.foldlM (fun groups rf => do
    let p ← parse_movie_info g rf.2
    let key :=
      p.title ++ (if optNatTruthy p.year then toString (p.year.getD 0) else "")
    let fi : MovieFileInfo :=
      ⟨pathJoin rf.1 rf.2, rf.2, p.resolution, p.part, p.extra_type⟩
    pure (movieAppend groups key fi)) []

/-- re.match(r"^(.*?)(\d{4})?$", key).groups(): the year group is the last
four characters when they are all digits, else absent. -/
def parse_movie_key (key : String) : String × Option String :=
  if 4 ≤ key.length && (key.data.drop (key.length - 4)).all Char.isDigit then
    (String.mk (key.data.take (key.length - 4)),
     some (String.mk (key.data.drop (key.length - 4))))
  else (key, none)

/-- The " - {resolution}" fragment of a movie main name ("" when the
resolution is falsy). -/
def movieResStr (fi : MovieFileInfo) : String :=
  match fi.resolution with
  | none => ""
  | some r => if r = "" then "" else " - " ++ r

/-- The " - part{N}" fragment of a movie main name ("" when the part is
falsy). -/
def moviePartStr (fi : MovieFileInfo) : String :=
  match fi.part with
  | none => ""
  | some p => if p = 0 then "" else " - part" ++ toString p

/-- The duplicate-detection key f"{res_str}{part_str}" of the movie
planner. -/
def movieVersionKey (fi : MovieFileInfo) : String :=
  movieResStr fi ++ moviePartStr fi

/-- Look up a version counter, defaulting to 0 for unseen keys
(defaultdict(int)). -/
def lookupD (m : List (String × Nat)) (k : String) : Nat :=
  match m with
  | [] => 0
  | (k2, n) :: rest => if k2 = k then n else lookupD rest k

/-- version_counter[key] += 1: the updated map and the incremented value. -/
def bumpCount (m : List (String × Nat)) (k : String) :
    List (String × Nat) × Nat :=
  match m with
  | [] => ([(k, 1)], 1)
  | (k2, n) :: rest =>
    if k2 = k then ((k2, n + 1) :: rest, n + 1)
    else
      let r := bumpCount rest k
      ((k2, n) :: r.1, r.2)

/-- The version marker appended for repeated (resolution, part) combinations:
only when the group has more than one main file and this key has now been
seen more than once. -/
def versionSuffix (nMains c : Nat) : String :=
  if 1 < nMains ∧ 1 < c then " - version" ++ toString c else ""

/-- The main-file loop of src/core/movie_organizer.py
prepare_file_operations: per-file resolution/part fragments, a mutable
version counter keyed by their concatenation, and disk-collision
disambiguation of the final target. -/
def planMovieMains (nMains : Nat) (folder_name movie_folder : String)
    (fs : List String) (counter : List (String × Nat)) :
    List MovieFileInfo → List (MovieFileInfo × String)
  | [] => []
  | fi :: rest =>
    let vk := movieVersionKey fi
    let bc := bumpCount counter vk
    let base_name := folder_name ++ vk ++ versionSuffix nMains bc.2
    let target0 := pathJoin movie_folder (base_name ++ (splitext fi.file).2)
    (fi, handle_duplicate_files fs target0) ::
      planMovieMains nMains folder_name movie_folder fs bc.1 rest

/-- One planned movie extra entry. -/
def movieExtraEntry (fs : List String) (movie_folder : String)
    (fi : MovieFileInfo) : MovieFileInfo × String :=
  (fi, handle_duplicate_files fs
        (pathJoin (pathJoin movie_folder (fi.extra_type.getD "")) fi.file))

/-- The per-group body of prepare_file_operations: recover title and year
from the group key, split mains from extras, plan mains with the version
counter, then append planned extras. -/
def movieGroupStep (fs : List String) (target_dir : String) (acc : MoviePlan)
    (g : String × List MovieFileInfo) : MoviePlan :=
  let ty := parse_movie_key g.1
  let year_str := match ty.2 with | none => "" | some y => " (" ++ y ++ ")"
  let folder_name := ty.1 ++ year_str
  let movie_folder := pathJoin target_dir folder_name
  let mains := g.2.filter (fun f => !(optStrTruthy f.extra_type))
  let extras := g.2.filter (fun f => optStrTruthy f.extra_type)
  let acc2 :=
    (acc.1 ++ planMovieMains mains.length folder_name movie_folder fs [] mains,
     acc.2)
  extras.foldl
    (fun a fi => (a.1, a.2 ++ [movieExtraEntry fs movie_folder fi])) acc2

/-- src/core/movie_organizer.py prepare_file_operations over all movie
groups in insertion order. -/
def prepare_file_operations (movie_groups : MovieGroups) (target_dir : String)
    (fs : List String) : MoviePlan :=
  movie_groups.foldl (movieGroupStep fs target_dir) ([], [])

/-- Total number of scanned files held in a series grouping. -/
def tvGroupsFileCount (groups : SeriesGroups) : Nat :=
  (groups.map (fun g => (g.2.map (fun sg => sg.2.length)).sum)).sum

/-- Total number of scanned files held in a movie grouping. -/
def movieGroupsFileCount (mg : MovieGroups) : Nat :=
  (mg.map (fun g => g.2.length)).sum

/-- The two shutil transfer operations used by the organizers. -/
inductive FileOp where
  | copy
  | move
deriving DecidableEq

/-- The movie main-file transfer loop of organize_movies: shutil.copy2 for
every planned main file, regardless of downmix. -/
def movieMainCopyActions (mains : List (MovieFileInfo × String)) :
    List (FileOp × String × String) :=
  mains.map (fun e => (FileOp.copy, e.1.path, e.2))

/-- The movie extra transfer loop of organize_movies: shutil.copy2. -/
def movieExtraCopyActions (extras : List (MovieFileInfo × String)) :
    List (FileOp × String × String) :=
  extras.map (fun e => (FileOp.copy, e.1.path, e.2))

/-- The episode transfer loop of organize_tv_shows: shutil.copy2 when
downmix_audio, else shutil.move. -/
def tvMainCopyActions (mains : List (TvFileInfo × String))
    (downmix_audio : Bool) : List (FileOp × String × String) :=
  mains.map
    (fun e => ((if downmix_audio then FileOp.copy else FileOp.move),
               e.1.path, e.2))

/-- The tv extra transfer loop of organize_tv_shows: shutil.move always. -/
def tvExtraCopyActions (extras : List (TvFileInfo × String)) :
    List (FileOp × String × String) :=
  extras.map (fun e => (FileOp.move, e.1.path, e.2))

/-- The temporary side-by-side output path f"{base}.temp{ext}" built in both
organizers before FFmpeg processing. -/
def tempPathOf (p : String) : String :=
  (splitext p).1 ++ ".temp" ++ (splitext p).2

/-- ffmpeg_tasks built in the transfer loops: one (target, temp) pair per
planned main file when downmix is requested, none otherwise. -/
def buildFfmpegTasks (targets : List String) (downmix_audio : Bool) :
    List (String × String) :=
  if downmix_audio then targets.map (fun t => (t, tempPathOf t)) else []

/-- The destination filesystem during the transcode stage: an association of
paths to abstract file contents. -/
abbrev FS := List (String × Nat)

/-- Content of a path, none when the path does not exist. -/
def fsGet : FS → String → Option Nat
  | [], _ => none
  | (q, c) :: rest, p => if q = p then some c else fsGet rest p

/-- Write (create or overwrite) a path. -/
def fsWrite : FS → String → Nat → FS
  | [], p, c => [(p, c)]
  | (q, d) :: rest, p, c =>
    if q = p then (q, c) :: rest else (q, d) :: fsWrite rest p c

/-- os.remove: delete a path. -/
def fsErase : FS → String → FS
  | [], _ => []
  | (q, d) :: rest, p =>
    if q = p then fsErase rest p else (q, d) :: fsErase rest p

/-- os.path.exists during the transcode stage. -/
def fsExists (fs : FS) (p : String) : Bool := (fsGet fs p).isSome

/-- os.replace(src, dst): a single atomic rename of src onto dst (no-op here
when src is missing, which the success path never is). -/
def osReplace (fs : FS) (src dst : String) : FS :=
  match fsGet fs src with
  | some c => fsWrite (fsErase fs src) dst c
  | none => fs

/-- Outcome of one external FFmpeg invocation
(src/core/file_processor.py process_with_ffmpeg_async returns True on exit
code zero and False on CalledProcessError): on exit zero the temp output was
fully written; on nonzero exit the tool may have left a partial temp file or
none. The tool writes only its output path; the input is only read. -/
inductive ToolRun where
  | exitZero (out : Nat)
  | exitNonzero (maybeOut : Option Nat)
deriving DecidableEq

/-- Effect of the external tool invocation on the filesystem: it writes (at
most) the temp output path. -/
def runFfmpegTool (fs : FS) (temp : String) (r : ToolRun) : FS :=
  match r with
  | .exitZero out => fsWrite fs temp out
  | .exitNonzero (some c) => fsWrite fs temp c
  | .exitNonzero none => fs

/-- process_single_file in src/core/tv_organizer.py organize_tv_shows (the
movie organizer holds an identical copy): run the tool into the temp path;
on success os.replace the temp onto the target, on failure os.remove the
temp if it exists and leave the target alone. -/
def process_single_file (fs : FS) (orig temp : String) (r : ToolRun) : FS :=
  let fs1 := runFfmpegTool fs temp r
  match r with
  | .exitZero _ => osReplace fs1 temp orig
  | .exitNonzero _ => if fsExists fs1 temp then fsErase fs1 temp else fs1

/-- The awaited gather over all ffmpeg tasks. The tasks of one run touch
pairwise-disjoint path pairs, so the final filesystem equals the sequential
fold in completion order; the fold models that. -/
def processBatch (fs : FS) : List (String × String × ToolRun) → FS
  | [] => fs
  | t :: rest => processBatch (process_single_file fs t.1 t.2.1 t.2.2) rest

/-- State of the bounded transcode stage: the asyncio.Semaphore(2) counter,
the number of invocations in flight (inside the async-with, tool running),
and the tasks not yet started or already finished. -/
structure SemState where
  sem : Nat
  running : Nat
  pending : Nat
  done : Nat
deriving DecidableEq

/-- Transitions of the transcode stage: a task may enter the async-with only
by acquiring the semaphore (possible only when the counter is positive, else
it waits); leaving the async-with releases the counter. -/
inductive SemStep : SemState → SemState → Prop
  | acquire (s : SemState) (hp : 0 < s.pending) (hs : 0 < s.sem) :
      SemStep s ⟨s.sem - 1, s.running + 1, s.pending - 1, s.done⟩
  | release (s : SemState) (hr : 0 < s.running) :
      SemStep s ⟨s.sem + 1, s.running - 1, s.pending, s.done + 1⟩

/-- Initial state of a run's transcode stage: asyncio.Semaphore(2), no task
started. -/
def initState (n : Nat) : SemState := ⟨2, 0, n, 0⟩

/-- States reachable during one run's transcode stage. -/
inductive Reachable : SemState → Prop
  | init (n : Nat) : Reachable (initState n)
  | step {s s2 : SemState} : Reachable s → SemStep s s2 → Reachable s2

/-- Modelled from the spec (section 4.4 table): the category of one tag,
case-sensitive substring match. -/
def tagCategory (s : String) : Option String :=
  if strContains s "Trailer" then some "trailers"
  else if strContains s "BehindTheScenes" || strContains s "Featurette" then
    some "behind the scenes"
  else if strContains s "Interview" then some "interviews"
  else if strContains s "Deleted" then some "deleted scenes"
  else none

/-- Modelled from the spec (section 4.4): normalize the tag set to a list and
return the category of the first matching tag. -/
def extraClassSpec (other : Option OtherVal) : Option String :=
  match other with
  | none => none
  | some (.one s) => [s].findSome? tagCategory
  | some (.many l) => l.findSome? tagCategory

/-- The amended episode-range specification: absent, the integer 0 and the
empty list map to None; a nonzero integer or a one-element list maps to the
integer; longer lists format first and last as a range string. -/
def normalizeSpecA : EpisodeValue → Option (Nat ⊕ String)
  | .absent => none
  | .int 0 => none
  | .int n => some (.inl n)
  | .list [] => none
  | .list [a] => some (.inl a)
  | .list (a :: b :: rest) =>
    some (.inr (pad2 a ++ "-E" ++ pad2 ((b :: rest).getLastD b)))

/-- Modelled from the spec (section 4.9): the transfer operation determined
by content type, extra status and the downmix flag. -/
def specTransferOp (isSeries isExtraFile downmix : Bool) : FileOp :=
  if isSeries then
    if isExtraFile then FileOp.move
    else if downmix then FileOp.copy else FileOp.move
  else FileOp.copy

/-- Occurrences of a version key within a list of movie main files. -/
def countKey : List MovieFileInfo → String → Nat
  | [], _ => 0
  | f :: rest, k =>
    (if movieVersionKey f = k then 1 else 0) + countKey rest k

/-- A guesser that always raises. -/
def failingGuesser : Guesser := fun _ => .error (.err "boom")

/-- A guesser reporting only an Interview bonus tag. -/
def interviewGuesser : Guesser :=
  fun _ => .ok ⟨some "X", none, none, .absent, none, none, some (.many ["Interview"])⟩

/-- A guesser detecting nothing at all. -/
def noneGuesser : Guesser := fun _ => .ok emptyInfo

/-- A guesser resolving every file to series Show, episode [1], no year,
season, resolution, part or extra tag. -/
def sameShowGuesser : Guesser :=
  fun _ => .ok ⟨some "Show", none, none, .list [1], none, none, none⟩

/-- Two movie main files both resolving to resolution 1080p, no part. -/
def avatarFiles : List MovieFileInfo :=
  [⟨"s/A1.mkv", "A1.mkv", some "1080p", none, none⟩,
   ⟨"s/A2.mkv", "A2.mkv", some "1080p", none, none⟩]

/-- Placeholder movie file for positional list access. -/
def dummyMovieFile : MovieFileInfo := ⟨"", "", none, none, none⟩

/-- Placeholder planned movie entry for positional list access. -/
def dummyMovieEntry : MovieFileInfo × String := (dummyMovieFile, "")

/-- The decimal digit characters of a natural number, most significant
first: the digit sequence that Nat.repr (and Python str) produce. Used to
prove the collision counter's rendering injective. -/
def decDigits (n : Nat) : List Char :=
  if n / 10 = 0 then [Nat.digitChar (n % 10)]
  else decDigits (n / 10) ++ [Nat.digitChar (n % 10)]
termination_by n
decreasing_by
  simp_wf
  omega

/-- A scanned series file resolving to Show, season 1, episode 1, used to
exercise the disk-avoidance conjunct of the planner. -/
def c1Fi : TvFileInfo :=
  ⟨"src/a.mkv", "a.mkv", "Show", 1, some (.inl 1), none, none, none, none⟩

/-! Theorems. -/

theorem pySplitDot_ne_nil (l : List Char) : pySplitDot l ≠ [] := by
  cases l with
  | nil => simp [pySplitDot]
  | cons c cs =>
    unfold pySplitDot
    cases h : pySplitDot cs with
    | nil => simp
    | cons s rest =>
      by_cases hc : c = '.' <;> simp [hc]

theorem joinDot_pySplitDot (l : List Char) : joinDot (pySplitDot l) = l := by
  induction l with
  | nil => rfl
  | cons c cs ih =>
    unfold pySplitDot
    cases h : pySplitDot cs with
    | nil => exact absurd h (pySplitDot_ne_nil cs)
    | cons s rest =>
      rw [h] at ih
      by_cases hc : c = '.'
      · subst hc
        simpa [joinDot] using ih
      · cases rest with
        | nil =>
          simp only [if_neg hc, joinDot] at ih ⊢
          rw [ih]
        | cons t ts =>
          simp only [if_neg hc, joinDot, List.cons_append] at ih ⊢
          rw [ih]

theorem joinDot_dropLast (a b : List Char) (rest : List (List Char)) :
    joinDot (a :: b :: rest) =
      joinDot ((a :: b :: rest).dropLast) ++
        '.' :: (a :: b :: rest).getLastD [] := by
  induction rest generalizing a b with
  | nil => simp [joinDot]
  | cons r rs ih =>
    calc joinDot (a :: b :: r :: rs)
        = a ++ '.' :: joinDot (b :: r :: rs) := by simp [joinDot]
      _ = a ++ '.' :: (joinDot ((b :: r :: rs).dropLast) ++
            '.' :: (b :: r :: rs).getLastD []) := by rw [ih]
      _ = joinDot ((a :: b :: r :: rs).dropLast) ++
            '.' :: (a :: b :: r :: rs).getLastD [] := by
          simp [List.dropLast, joinDot, List.getLastD]

/-- Claim C10: get_filename_for_parsing is the identity: splitting a filename
on dots and rejoining the leading segments with the last segment reproduces
the input exactly, so the guessing capability always receives the raw
filename unchanged. -/
theorem c10_filename_for_parsing_identity (s : String) :
    get_filename_for_parsing s = s := by
  unfold get_filename_for_parsing
  cases hp : pySplitDot s.data with
  | nil => exact absurd hp (pySplitDot_ne_nil s.data)
  | cons a rest =>
    cases rest with
    | nil => simp
    | cons b rest2 =>
      have hlen : ¬ ((a :: b :: rest2).length < 2) := by
        simp [Nat.not_lt]
      simp only [hlen, if_false]
      have hj : joinDot ((a :: b :: rest2).dropLast) ++
          '.' :: (a :: b :: rest2).getLastD [] = s.data := by
        rw [← joinDot_dropLast, ← hp, joinDot_pySplitDot]
      rw [hj]

/-- Claim C4, counterexample: the claim maps a single integer episode value
to that integer, but the source's falsiness test (if not episode) sends the
bare integer 0 to None instead. -/
theorem c4_counterexample :
    normalize_episode_range (.int 0) = none ∧
      (none : Option (Nat ⊕ String)) ≠ some (.inl 0) := by
  exact ⟨rfl, by decide⟩

/-- Claim C4, amended: absent values, the bare integer 0 and the empty list
map to None; any other single integer (including a one-element list, even
[0]) maps to that integer; a two-element list [a,b] maps to "{a:02d}-E{b:02d}";
longer lists keep only their first and last elements in the same format. -/
theorem c4_amended (e : EpisodeValue) :
    normalize_episode_range e = normalizeSpecA e := by
  cases e with
  | absent => rfl
  | int n => cases n <;> simp [normalize_episode_range, normalizeSpecA]
  | list l =>
    match l with
    | [] => rfl
    | [a] => rfl
    | [a, b] => rfl
    | a :: b :: c :: rest =>
      simp only [normalize_episode_range, normalizeSpecA]
      have h4 : ¬ ((a :: b :: c :: rest).length = 0) := by simp
      have h1 : ¬ ((a :: b :: c :: rest).length = 1) := by simp
      have h2 : ¬ ((a :: b :: c :: rest).length = 2) := by simp
      simp only [h4, h1, h2, if_false]
      simp [List.getLastD]

theorem extraTagScan_eq_findSome (l : List String) :
    extraTagScan l = l.findSome? tagCategory := by
  induction l with
  | nil => rfl
  | cons o rest ih =>
    simp only [extraTagScan, List.findSome?_cons, tagCategory]
    split_ifs <;> simp [ih]

/-- Claim C3, counterexample: the claimed four-category mapping applies to
movies too, but the inline movie logic recognizes only Trailer and
BehindTheScenes/Featurette: a movie file whose guess carries the Interview
tag gets no extra category (the series-side classifier on the same tag does
return interviews). -/
theorem c3_counterexample :
    (parse_movie_info interviewGuesser "x.mkv").map MovieParsed.extra_type =
        Except.ok none ∧
      (Except.ok (none : Option String) : Except GuessErr (Option String)) ≠
        Except.ok (some "interviews") ∧
      detect_extra_type (some (.many ["Interview"])) = some "interviews" := by
  refine ⟨rfl, by simp, rfl⟩

/-- Claim C3, amended: the series-side classifier maps the other tags to all
four categories exactly as the spec table states (first matching tag wins,
case-sensitive substring match); the movie-side inline classifier recognizes
only Trailer (trailers) and BehindTheScenes/Featurette (behind the scenes) —
characterized exactly: trailers iff a Trailer tag is present, behind the
scenes iff no Trailer tag but a BehindTheScenes or Featurette tag, and None
otherwise — so Interview and Deleted tags on a movie file yield None (main
file). -/
theorem c3_amended (other : Option OtherVal) :
    detect_extra_type other = extraClassSpec other ∧
      (movieExtraFromOther other = some "trailers" ↔
        ∃ v, other = some v ∧ pyInOther "Trailer" v = true) ∧
      (movieExtraFromOther other = some "behind the scenes" ↔
        ∃ v, other = some v ∧ pyInOther "Trailer" v = false ∧
          (pyInOther "BehindTheScenes" v = true ∨
           pyInOther "Featurette" v = true)) ∧
      (movieExtraFromOther other = none ↔
        (other = none ∨
         ∃ v, other = some v ∧ pyInOther "Trailer" v = false ∧
           pyInOther "BehindTheScenes" v = false ∧
           pyInOther "Featurette" v = false)) := by
  refine ⟨?_, ?_, ?_, ?_⟩
  · cases other with
    | none => rfl
    | some v =>
      cases v with
      | one s => simp [detect_extra_type, extraClassSpec, extraTagScan_eq_findSome]
      | many l => simp [detect_extra_type, extraClassSpec, extraTagScan_eq_findSome]
  all_goals
    cases other with
    | none => simp [movieExtraFromOther]
    | some v =>
      by_cases h1 : pyInOther "Trailer" v = true <;>
        by_cases h2 : pyInOther "BehindTheScenes" v = true <;>
          by_cases h3 : pyInOther "Featurette" v = true <;>
            simp [movieExtraFromOther, h1, h2, h3]

/-- Claim C2, counterexample: parse_tv_info and parse_movie_info contain no
try/except around the guessit call, so a raising guesser makes extraction
propagate the exception instead of returning the filename-derived
fallback. -/
theorem c2_counterexample :
    parse_tv_info failingGuesser "test.mkv" = Except.error (.err "boom") ∧
      parse_movie_info failingGuesser "test.mkv" =
        Except.error (.err "boom") ∧
      (Except.error (.err "boom") : Except GuessErr TvParsed) ≠
        Except.ok ⟨"test", none, none, none, none, none, none⟩ := by
  refine ⟨rfl, rfl, fun h => Except.noConfusion h⟩

/-- Claim C2, amended: a guesser exception propagates unchanged out of both
parsers; the filename-derived fallback title applies only when the guesser
returns normally with no title field (series: filename without its last
extension; movie: os.path.splitext root). -/
theorem c2_amended (g : Guesser) (f : String) :
    (∀ e, g (get_filename_for_parsing f) = Except.error e →
        parse_tv_info g f = Except.error e) ∧
      (∀ e, g f = Except.error e → parse_movie_info g f = Except.error e) ∧
      (∀ i, g (get_filename_for_parsing f) = Except.ok i → i.title = none →
        (parse_tv_info g f).map TvParsed.series =
          Except.ok (get_base_filename_without_ext f)) ∧
      (∀ i, g f = Except.ok i → i.title = none →
        (parse_movie_info g f).map MovieParsed.title =
          Except.ok (splitext f).1) := by
  refine ⟨fun e he => ?_, fun e he => ?_, fun i hi ht => ?_, fun i hi ht => ?_⟩
  · simp [parse_tv_info, he]
  · simp [parse_movie_info, he]
  · simp [parse_tv_info, hi, ht, Except.map]
  · simp [parse_movie_info, hi, ht, Except.map]

/-- Witness for c2_amended: the failing guesser propagates its exception
through parse_tv_info at a concrete filename. -/
theorem c2_amended_witness :
    parse_tv_info failingGuesser "x.mkv" = Except.error (.err "boom") :=
  (c2_amended failingGuesser "x.mkv").1 (.err "boom") rfl

/-- Claim C8, counterexample: the claim says the fallback patterns are
matched case-insensitively, so that SEASON 5 matches; but the source patterns
[sS]eason and [eE]pisode only make their first letter case-insensitive:
with a guess reporting neither season nor episode, SEASON 5.mkv and
EPISODE 3.mkv classify as movie, not series. -/
theorem c8_counterexample :
    detect_content_type noneGuesser "SEASON 5.mkv" = Except.ok "movie" ∧
      detect_content_type noneGuesser "EPISODE 3.mkv" = Except.ok "movie" ∧
      (Except.ok "movie" : Except GuessErr String) ≠ Except.ok "tv" := by
  refine ⟨rfl, rfl, by simp⟩

/-- Claim C8, amended: the classifier returns series (tag "tv") exactly when
the guess reports a season or episode value or some suffix of the filename
matches one of the fallback patterns S digits E digits, Season digits,
Episode digits — the S/E letters case-insensitive but the rest of the words
Season and Episode lowercase-only. Whenever the guesser returns normally the
result is one of the two tags; a guesser exception propagates. -/
theorem c8_amended (g : Guesser) (f : String) :
    (∀ e, g f = Except.error e → detect_content_type g f = Except.error e) ∧
      (∀ i, g f = Except.ok i →
        (detect_content_type g f = Except.ok "tv" ∨
         detect_content_type g f = Except.ok "movie") ∧
        (detect_content_type g f = Except.ok "tv" ↔
          (i.season.isSome = true ∨ epIsAbsent i.episode = false ∨
           ∃ t ∈ f.data.tails,
             (seAt t = true ∨ seasonAt t = true ∨ episodeAt t = true)))) := by
  constructor
  · intro e he
    simp [detect_content_type, he]
  · intro i hi
    simp only [detect_content_type, hi]
    split_ifs with h1 h2
    · refine ⟨Or.inl rfl, ?_⟩
      simp only [true_iff]
      simp only [Bool.or_eq_true, Bool.not_eq_true'] at h1
      rcases h1 with h | h
      · exact Or.inl h
      · exact Or.inr (Or.inl h)
    · refine ⟨Or.inl rfl, ?_⟩
      simp only [true_iff]
      refine Or.inr (Or.inr ?_)
      simpa [matchesTvPattern, List.any_eq_true, or_assoc] using h2
    · refine ⟨Or.inr rfl, ?_⟩
      simp only [Bool.or_eq_true, Bool.not_eq_true'] at h1
      push_neg at h1
      constructor
      · intro hcontra
        exact absurd hcontra (by simp)
      · intro hcases
        exfalso
        rcases hcases with h | h | h
        · exact h1.1 h
        · exact absurd h1.2 (by simp [h])
        · exact h2 (by simpa [matchesTvPattern, List.any_eq_true, or_assoc] using h)

/-- Witness for c8_amended: with a guesser detecting nothing, a concrete
filename classifies as one of the two tags. -/
theorem c8_amended_witness :
    detect_content_type noneGuesser "Random.File.mkv" = Except.ok "tv" ∨
      detect_content_type noneGuesser "Random.File.mkv" = Except.ok "movie" :=
  ((c8_amended noneGuesser "Random.File.mkv").2 emptyInfo rfl).1

theorem map_const_fst {A B : Type} (l : List A) (op : FileOp) (g : A → B) :
    (l.map (fun e => (op, g e))).map Prod.fst = l.map (fun _ => op) := by
  induction l with
  | nil => rfl
  | cons a rest ih => simp only [List.map_cons, ih]

/-- Claim C7: the transfer operation of every entry in each of the four
transfer loops is exactly the one the spec table determines from content
type, main/extra status and the downmix flag: movie mains and movie extras
are always copied; series mains move unless downmix, in which case they are
copied; series extras always move. -/
theorem c7_transfer_operations (mm me : List (MovieFileInfo × String))
    (tm te : List (TvFileInfo × String)) (dm : Bool) :
    (movieMainCopyActions mm).map Prod.fst =
        mm.map (fun _ => specTransferOp false false dm) ∧
      (movieExtraCopyActions me).map Prod.fst =
        me.map (fun _ => specTransferOp false true dm) ∧
      (tvMainCopyActions tm dm).map Prod.fst =
        tm.map (fun _ => specTransferOp true false dm) ∧
      (tvExtraCopyActions te).map Prod.fst =
        te.map (fun _ => specTransferOp true true dm) := by
  refine ⟨?_, ?_, ?_, ?_⟩ <;>
    cases dm <;>
      first
        | exact map_const_fst _ FileOp.copy _
        | exact map_const_fst _ FileOp.move _

theorem reachable_sem_add_running {s : SemState} (h : Reachable s) :
    s.sem + s.running = 2 := by
  induction h with
  | init n => rfl
  | step hr hstep ih =>
    cases hstep with
    | acquire hp hs =>
      show _ - 1 + (_ + 1) = 2
      omega
    | release hrun =>
      show _ + 1 + (_ - 1) = 2
      omega

/-- Claim C9: in every state reachable during the transcode stage, at most 2
external invocations are in flight, and a transition that starts a new
invocation (increases the in-flight count) is only possible from a state
with a free slot (fewer than 2 in flight) — further tasks wait on the
semaphore. -/
theorem c9_transcode_bound (s : SemState) (h : Reachable s) :
    s.running ≤ 2 ∧
      ∀ s2, SemStep s s2 → s.running < s2.running → s.running < 2 := by
  have hinv := reachable_sem_add_running h
  refine ⟨by omega, ?_⟩
  intro s2 hstep hincr
  cases hstep with
  | acquire hp hs => omega
  | release hrun =>
    exfalso
    have h2 : s.running < s.running - 1 := hincr
    omega

/-- Witness for c9_transcode_bound: the initial state of a five-task run is
reachable and within the bound. -/
theorem c9_transcode_bound_witness : (initState 5).running ≤ 2 :=
  (c9_transcode_bound (initState 5) (Reachable.init 5)).1

theorem fsGet_write_self (fs : FS) (p : String) (c : Nat) :
    fsGet (fsWrite fs p c) p = some c := by
  induction fs with
  | nil => simp [fsWrite, fsGet]
  | cons e rest ih =>
    obtain ⟨k, d⟩ := e
    by_cases h : k = p
    · simp [fsWrite, fsGet, h]
    · simp [fsWrite, fsGet, h, ih]

theorem fsGet_write_other (fs : FS) (p q : String) (c : Nat) (h : q ≠ p) :
    fsGet (fsWrite fs p c) q = fsGet fs q := by
  have h2 : ¬ (p = q) := fun he => h he.symm
  induction fs with
  | nil => simp [fsWrite, fsGet, h2]
  | cons e rest ih =>
    obtain ⟨k, d⟩ := e
    by_cases hk : k = p
    · subst hk
      simp [fsWrite, fsGet, h2]
    · by_cases hq : k = q <;> simp [fsWrite, fsGet, hk, hq, ih, h]

theorem fsGet_erase_self (fs : FS) (p : String) :
    fsGet (fsErase fs p) p = none := by
  induction fs with
  | nil => simp [fsErase, fsGet]
  | cons e rest ih =>
    obtain ⟨k, d⟩ := e
    by_cases h : k = p <;> simp [fsErase, fsGet, h, ih]

theorem fsGet_erase_other (fs : FS) (p q : String) (h : q ≠ p) :
    fsGet (fsErase fs p) q = fsGet fs q := by
  have h2 : ¬ (p = q) := fun he => h he.symm
  induction fs with
  | nil => simp [fsErase, fsGet]
  | cons e rest ih =>
    obtain ⟨k, d⟩ := e
    by_cases hk : k = p
    · subst hk
      simp [fsErase, fsGet, h2, ih]
    · by_cases hq : k = q <;> simp [fsErase, fsGet, hk, hq, ih, h]

theorem process_single_file_other (fs : FS) (orig temp p : String)
    (r : ToolRun) (h1 : p ≠ orig) (h2 : p ≠ temp) :
    fsGet (process_single_file fs orig temp r) p = fsGet fs p := by
  cases r with
  | exitZero out =>
    simp only [process_single_file, runFfmpegTool, osReplace,
      fsGet_write_self]
    rw [fsGet_write_other _ _ _ _ h1, fsGet_erase_other _ _ _ h2,
      fsGet_write_other _ _ _ _ h2]
  | exitNonzero m =>
    cases m with
    | some c =>
      simp only [process_single_file, runFfmpegTool, fsExists,
        fsGet_write_self, Option.isSome_some, if_true]
      rw [fsGet_erase_other _ _ _ h2, fsGet_write_other _ _ _ _ h2]
    | none =>
      simp only [process_single_file, runFfmpegTool, fsExists]
      by_cases he : (fsGet fs temp).isSome = true
      · simp only [he, if_true]
        exact fsGet_erase_other _ _ _ h2
      · rw [Bool.not_eq_true] at he
        simp [he]

theorem process_single_file_fail (fs : FS) (orig temp : String)
    (m : Option Nat) (h : orig ≠ temp) :
    fsGet (process_single_file fs orig temp (.exitNonzero m)) orig =
        fsGet fs orig ∧
      fsGet (process_single_file fs orig temp (.exitNonzero m)) temp =
        none := by
  cases m with
  | some c =>
    simp only [process_single_file, runFfmpegTool, fsExists,
      fsGet_write_self, Option.isSome_some, if_true]
    exact ⟨by rw [fsGet_erase_other _ _ _ h, fsGet_write_other _ _ _ _ h],
           fsGet_erase_self _ _⟩
  | none =>
    simp only [process_single_file, runFfmpegTool, fsExists]
    by_cases he : (fsGet fs temp).isSome = true
    · simp only [he, if_true]
      exact ⟨fsGet_erase_other _ _ _ h, fsGet_erase_self _ _⟩
    · rw [Bool.not_eq_true] at he
      have hnone : fsGet fs temp = none := by
        cases hg : fsGet fs temp with
        | none => rfl
        | some c => rw [hg] at he; simp at he
      simp [hnone]

theorem process_single_file_success (fs : FS) (orig temp : String)
    (out : Nat) (h : orig ≠ temp) :
    fsGet (process_single_file fs orig temp (.exitZero out)) orig =
        some out ∧
      fsGet (process_single_file fs orig temp (.exitZero out)) temp =
        none := by
  refine ⟨?_, ?_⟩
  · simp only [process_single_file, runFfmpegTool, osReplace, fsGet_write_self]
  · simp only [process_single_file, runFfmpegTool, osReplace, fsGet_write_self]
    rw [fsGet_write_other _ _ _ _ (fun he => h he.symm), fsGet_erase_self]

theorem processBatch_append (fs : FS)
    (pre post : List (String × String × ToolRun)) :
    processBatch fs (pre ++ post) = processBatch (processBatch fs pre) post := by
  induction pre generalizing fs with
  | nil => rfl
  | cons t rest ih => exact ih (process_single_file fs t.1 t.2.1 t.2.2)

theorem processBatch_preserves (fs : FS)
    (tasks : List (String × String × ToolRun)) (p : String)
    (h : ∀ t ∈ tasks, t.1 ≠ p ∧ t.2.1 ≠ p) :
    fsGet (processBatch fs tasks) p = fsGet fs p := by
  induction tasks generalizing fs with
  | nil => rfl
  | cons t rest ih =>
    have ht := h t (List.mem_cons_self t rest)
    rw [processBatch, ih _ (fun u hu => h u (List.mem_cons_of_mem t hu)),
      process_single_file_other _ _ _ _ _ (Ne.symm ht.1) (Ne.symm ht.2)]

/-- Claim C5: within a transcode batch over pairwise path-disjoint tasks,
a task whose external tool exits nonzero leaves its target's bytes exactly
as before the batch and leaves no temp file, while the remaining tasks
(before and after it) are still processed; a task whose tool exits zero has
its temp output atomically renamed onto the target (target holds the new
content, temp gone). -/
theorem c5_transcode_failure_isolation (fs : FS)
    (pre post : List (String × String × ToolRun)) (orig temp : String)
    (hot : orig ≠ temp)
    (hpre : ∀ t ∈ pre,
      t.1 ≠ orig ∧ t.1 ≠ temp ∧ t.2.1 ≠ orig ∧ t.2.1 ≠ temp)
    (hpost : ∀ t ∈ post,
      t.1 ≠ orig ∧ t.1 ≠ temp ∧ t.2.1 ≠ orig ∧ t.2.1 ≠ temp) :
    (∀ r, processBatch fs (pre ++ (orig, temp, r) :: post) =
        processBatch
          (process_single_file (processBatch fs pre) orig temp r) post) ∧
      (∀ m,
        fsGet (processBatch fs (pre ++ (orig, temp, .exitNonzero m) :: post))
            orig = fsGet fs orig ∧
          fsGet (processBatch fs (pre ++ (orig, temp, .exitNonzero m) :: post))
            temp = none) ∧
      (∀ out,
        fsGet (processBatch fs (pre ++ (orig, temp, .exitZero out) :: post))
            orig = some out ∧
          fsGet (processBatch fs (pre ++ (orig, temp, .exitZero out) :: post))
            temp = none) := by
  have hdecomp : ∀ r : ToolRun,
      processBatch fs (pre ++ (orig, temp, r) :: post) =
        processBatch
          (process_single_file (processBatch fs pre) orig temp r) post := by
    intro r
    rw [processBatch_append]
    rfl
  have hpostO : ∀ t ∈ post, t.1 ≠ orig ∧ t.2.1 ≠ orig :=
    fun t ht => ⟨(hpost t ht).1, (hpost t ht).2.2.1⟩
  have hpostT : ∀ t ∈ post, t.1 ≠ temp ∧ t.2.1 ≠ temp :=
    fun t ht => ⟨(hpost t ht).2.1, (hpost t ht).2.2.2⟩
  have hpreO : ∀ t ∈ pre, t.1 ≠ orig ∧ t.2.1 ≠ orig :=
    fun t ht => ⟨(hpre t ht).1, (hpre t ht).2.2.1⟩
  refine ⟨hdecomp, fun m => ?_, fun out => ?_⟩
  · have hf := process_single_file_fail (processBatch fs pre) orig temp m hot
    rw [hdecomp, processBatch_preserves _ _ _ hpostO,
      processBatch_preserves _ _ _ hpostT]
    exact ⟨by rw [hf.1, processBatch_preserves _ _ _ hpreO], hf.2⟩
  · have hs := process_single_file_success (processBatch fs pre) orig temp out hot
    rw [hdecomp, processBatch_preserves _ _ _ hpostO,
      processBatch_preserves _ _ _ hpostT]
    exact ⟨hs.1, hs.2⟩

/-- Witness for c5_transcode_failure_isolation: a concrete one-task batch
whose tool fails leaves the target file at its original content and no temp
file behind; the temp path is the f-string side-by-side path. -/
theorem c5_transcode_witness :
    fsGet (processBatch [("T/a.mkv", 7)]
        [("T/a.mkv", tempPathOf "T/a.mkv", ToolRun.exitNonzero none)])
        "T/a.mkv" = some 7 ∧
      fsGet (processBatch [("T/a.mkv", 7)]
        [("T/a.mkv", tempPathOf "T/a.mkv", ToolRun.exitNonzero none)])
        (tempPathOf "T/a.mkv") = none := by
  have h := c5_transcode_failure_isolation [("T/a.mkv", 7)] [] []
    "T/a.mkv" (tempPathOf "T/a.mkv") (by decide)
    (by intro t ht; cases ht) (by intro t ht; cases ht)
  have h2 := (h.2.1 none)
  simpa using h2

theorem bumpCount_val (m : List (String × Nat)) (k : String) :
    (bumpCount m k).2 = lookupD m k + 1 := by
  induction m with
  | nil => rfl
  | cons e rest ih =>
    obtain ⟨k2, n⟩ := e
    by_cases h : k2 = k <;> simp [bumpCount, lookupD, h, ih]

theorem bumpCount_lookup (m : List (String × Nat)) (k k2 : String) :
    lookupD (bumpCount m k).1 k2 =
      if k2 = k then lookupD m k + 1 else lookupD m k2 := by
  induction m with
  | nil =>
    by_cases h : k2 = k
    · simp [bumpCount, lookupD, h]
    · have hs : ¬ k = k2 := fun hx => h hx.symm
      simp [bumpCount, lookupD, h, hs]
  | cons e rest ih =>
    obtain ⟨k3, n⟩ := e
    by_cases h3 : k3 = k
    · subst h3
      by_cases h2 : k2 = k3
      · simp [bumpCount, lookupD, h2]
      · have h2s : ¬ k3 = k2 := fun hx => h2 hx.symm
        simp [bumpCount, lookupD, h2, h2s]
    · by_cases h2 : k3 = k2
      · subst h2
        by_cases hk : k3 = k <;> simp [bumpCount, lookupD, hk, h3, ih]
      · simp [bumpCount, lookupD, h3, h2, ih]

theorem countKey_le_length (l : List MovieFileInfo) (k : String) :
    countKey l k ≤ l.length := by
  induction l with
  | nil => simp [countKey]
  | cons f rest ih =>
    by_cases h : movieVersionKey f = k <;>
      simp [countKey, h, List.length_cons] <;> omega

theorem versionSuffix_eq (len c : Nat) (hc : c ≤ len) :
    versionSuffix len c =
      if 2 ≤ c then " - version" ++ toString c else "" := by
  by_cases h2 : 2 ≤ c
  · have h1 : 1 < len ∧ 1 < c := by omega
    simp [versionSuffix, h1, h2]
  · have h1 : ¬ (1 < len ∧ 1 < c) := by omega
    simp [versionSuffix, h1, h2]

theorem planMovieMains_getD (rest : List MovieFileInfo)
    (m : List (String × Nat)) (i : Nat) (h : i < rest.length) (n : Nat)
    (folder mf : String) (fs : List String) :
    (planMovieMains n folder mf fs m rest).getD i dummyMovieEntry =
      (rest.getD i dummyMovieFile,
       handle_duplicate_files fs (pathJoin mf
         (folder ++ movieVersionKey (rest.getD i dummyMovieFile) ++
          versionSuffix n
            (lookupD m (movieVersionKey (rest.getD i dummyMovieFile)) +
             countKey (rest.take (i + 1))
               (movieVersionKey (rest.getD i dummyMovieFile))) ++
          (splitext (rest.getD i dummyMovieFile).file).2))) := by
  induction rest generalizing m i with
  | nil => exact absurd h (by simp)
  | cons fi tail ih =>
    cases i with
    | zero =>
      simp only [planMovieMains, List.getD_cons_zero, List.take_succ_cons,
        List.take_zero, countKey]
      rw [bumpCount_val]
      simp [countKey]
    | succ j =>
      have hj : j < tail.length := by
        simpa [List.length_cons, Nat.succ_lt_succ_iff] using h
      simp only [planMovieMains, List.getD_cons_succ, List.take_succ_cons]
      rw [ih (bumpCount m (movieVersionKey fi)).1 j hj]
      have harith :
          lookupD (bumpCount m (movieVersionKey fi)).1
              (movieVersionKey (tail.getD j dummyMovieFile)) +
            countKey (tail.take (j + 1))
              (movieVersionKey (tail.getD j dummyMovieFile)) =
          lookupD m (movieVersionKey (tail.getD j dummyMovieFile)) +
            countKey (fi :: tail.take (j + 1))
              (movieVersionKey (tail.getD j dummyMovieFile)) := by
        rw [bumpCount_lookup]
        simp only [countKey]
        by_cases he :
            movieVersionKey (tail.getD j dummyMovieFile) = movieVersionKey fi
        · rw [he, if_pos rfl, if_pos rfl]
          omega
        · have he2 : ¬ (movieVersionKey fi =
              movieVersionKey (tail.getD j dummyMovieFile)) :=
            fun hx => he hx.symm
          rw [if_neg he, if_neg he2]
          omega
      rw [harith]

/-- Claim C6: within a movie group, the planner names the i-th main file
folder + resolution/part fragments + the extension, and appends
" - version{k}" exactly for the second and later occurrences (in scan order)
of the same (resolution, part) combination, where k is the occurrence number
(so the first occurrence gets no suffix and the second gets version2). -/
theorem c6_movie_version_suffix (mains : List MovieFileInfo)
    (folder mf : String) (fs : List String) (i : Nat)
    (h : i < mains.length) :
    (planMovieMains mains.length folder mf fs [] mains).getD i
        dummyMovieEntry =
      (mains.getD i dummyMovieFile,
       handle_duplicate_files fs (pathJoin mf
         (folder ++ movieVersionKey (mains.getD i dummyMovieFile) ++
          (if 2 ≤ countKey (mains.take (i + 1))
                (movieVersionKey (mains.getD i dummyMovieFile)) then
             " - version" ++ toString (countKey (mains.take (i + 1))
               (movieVersionKey (mains.getD i dummyMovieFile)))
           else "") ++
          (splitext (mains.getD i dummyMovieFile).file).2))) := by
  rw [planMovieMains_getD mains [] i h]
  have hc : countKey (mains.take (i + 1))
      (movieVersionKey (mains.getD i dummyMovieFile)) ≤ mains.length := by
    calc countKey (mains.take (i + 1))
          (movieVersionKey (mains.getD i dummyMovieFile))
        ≤ (mains.take (i + 1)).length := countKey_le_length _ _
      _ ≤ mains.length := by
          rw [List.length_take]
          omega
  rw [show lookupD [] (movieVersionKey (mains.getD i dummyMovieFile)) = 0
      from rfl]
  rw [Nat.zero_add, versionSuffix_eq _ _ hc]

/-- Witness for c6_movie_version_suffix: two files both resolving to
(1080p, no part) in one group: the second planned target carries
" - version2" while the first has no suffix. -/
theorem c6_movie_version_suffix_witness :
    ((planMovieMains avatarFiles.length "Avatar (2009)" "T/Avatar (2009)" []
        [] avatarFiles).getD 1 dummyMovieEntry).2 =
      "T/Avatar (2009)/Avatar (2009) - 1080p - version2.mkv" := by
  have h := c6_movie_version_suffix avatarFiles "Avatar (2009)"
    "T/Avatar (2009)" [] 1 (by decide)
  rw [h]
  rfl

/-- Claim C1, counterexample: two series files that resolve to the same
series, season, episode designator, part and resolution, with an empty
destination (neither target exists at plan time), are both assigned the
identical target path — the planner checks collisions only against the disk,
not against entries already planned in the same run. -/
theorem c1_counterexample :
    (match group_files_by_series sameShowGuesser
        [("src", "a.mkv"), ("src", "b.mkv")] with
     | .ok gs => (prepare_tv_operations gs "T" []).1.map Prod.snd
     | .error _ => []) =
      ["T/Show/Season 01/Show S01E01.mkv",
       "T/Show/Season 01/Show S01E01.mkv"] ∧
      ¬ List.Pairwise (fun a b => a ≠ b)
        ["T/Show/Season 01/Show S01E01.mkv",
         "T/Show/Season 01/Show S01E01.mkv"] := by
  exact ⟨rfl, by decide⟩

theorem foldl_snoc_fst {A E F : Type} (l : List A) (f : A → E)
    (acc : List E × List F) :
    l.foldl (fun a x => (a.1 ++ [f x], a.2)) acc = (acc.1 ++ l.map f, acc.2) := by
  induction l generalizing acc with
  | nil => simp
  | cons x rest ih =>
    rw [List.foldl_cons, ih]
    simp

theorem foldl_snoc_snd {A E F : Type} (l : List A) (f : A → F)
    (acc : List E × List F) :
    l.foldl (fun a x => (a.1, a.2 ++ [f x])) acc = (acc.1, acc.2 ++ l.map f) := by
  induction l generalizing acc with
  | nil => simp
  | cons x rest ih =>
    rw [List.foldl_cons, ih]
    simp

theorem length_filter_partition {A : Type} (l : List A) (p : A → Bool) :
    (l.filter (fun x => !(p x))).length + (l.filter p).length = l.length := by
  induction l with
  | nil => simp
  | cons a rest ih =>
    cases h : p a <;> simp [List.filter_cons, h] <;> omega

theorem tvSeasonStep_eq (fs : List String) (sk sf : String) (acc : TvPlan)
    (sg : Nat × List TvFileInfo) :
    tvSeasonStep fs sk sf acc sg =
      (acc.1 ++ (sg.2.filter (fun f => !(optStrTruthy f.extra_type))).map
          (tvMainEntry fs (pathJoin sf ("Season " ++ pad2 sg.1)) sk sg.1),
       acc.2 ++ (sg.2.filter (fun f => optStrTruthy f.extra_type)).map
          (tvExtraEntry fs (pathJoin sf ("Season " ++ pad2 sg.1)))) := by
  simp only [tvSeasonStep, foldl_snoc_fst, foldl_snoc_snd]

theorem tvSeasons_foldl_len (seasons : SeasonGroups) (fs : List String)
    (sk sf : String) (acc : TvPlan) :
    (seasons.foldl (tvSeasonStep fs sk sf) acc).1.length +
        (seasons.foldl (tvSeasonStep fs sk sf) acc).2.length =
      acc.1.length + acc.2.length +
        (seasons.map (fun sg => sg.2.length)).sum := by
  induction seasons generalizing acc with
  | nil => simp
  | cons sg rest ih =>
    rw [List.foldl_cons, ih, tvSeasonStep_eq]
    have hpart := length_filter_partition sg.2 (fun f => optStrTruthy f.extra_type)
    simp only [List.length_append, List.length_map, List.map_cons,
      List.sum_cons]
    omega

theorem prepare_tv_foldl_len (groups : SeriesGroups) (td : String)
    (fs : List String) (acc : TvPlan) :
    (groups.foldl
        (fun a g => g.2.foldl (tvSeasonStep fs g.1 (pathJoin td g.1)) a)
        acc).1.length +
      (groups.foldl
        (fun a g => g.2.foldl (tvSeasonStep fs g.1 (pathJoin td g.1)) a)
        acc).2.length =
      acc.1.length + acc.2.length + tvGroupsFileCount groups := by
  induction groups generalizing acc with
  | nil => simp [tvGroupsFileCount]
  | cons g rest ih =>
    rw [List.foldl_cons, ih, tvSeasons_foldl_len]
    simp only [tvGroupsFileCount, List.map_cons, List.sum_cons]
    omega

theorem planMovieMains_length (rest : List MovieFileInfo) (n : Nat)
    (folder mf : String) (fs : List String) (m : List (String × Nat)) :
    (planMovieMains n folder mf fs m rest).length = rest.length := by
  induction rest generalizing m with
  | nil => rfl
  | cons fi tail ih => simp [planMovieMains, ih]

theorem movieGroupStep_len (fs : List String) (td : String) (acc : MoviePlan)
    (g : String × List MovieFileInfo) :
    (movieGroupStep fs td acc g).1.length +
        (movieGroupStep fs td acc g).2.length =
      acc.1.length + acc.2.length + g.2.length := by
  simp only [movieGroupStep, foldl_snoc_snd]
  have hpart := length_filter_partition g.2 (fun f => optStrTruthy f.extra_type)
  simp only [List.length_append, List.length_map, planMovieMains_length]
  omega

theorem prepare_movie_foldl_len (mg : MovieGroups) (td : String)
    (fs : List String) (acc : MoviePlan) :
    (mg.foldl (movieGroupStep fs td) acc).1.length +
        (mg.foldl (movieGroupStep fs td) acc).2.length =
      acc.1.length + acc.2.length + movieGroupsFileCount mg := by
  induction mg generalizing acc with
  | nil => simp [movieGroupsFileCount]
  | cons g rest ih =>
    rw [List.foldl_cons, ih]
    have hg := movieGroupStep_len fs td acc g
    simp only [movieGroupsFileCount, List.map_cons, List.sum_cons]
    omega

theorem digitsVal_append_digit (xs : List Char) (c : Char) :
    digitsVal (xs ++ [c]) = 10 * digitsVal xs + (c.toNat - 48) := by
  simp [digitsVal, List.foldl_append, Nat.mul_comm]

theorem digitChar_val : ∀ m, m < 10 → (Nat.digitChar m).toNat - 48 = m := by
  decide

theorem digitsVal_decDigits (n : Nat) : digitsVal (decDigits n) = n := by
  induction n using Nat.strong_induction_on with
  | _ n ih =>
    rw [decDigits]
    by_cases h : n / 10 = 0
    · rw [if_pos h]
      calc digitsVal [Nat.digitChar (n % 10)]
          = (Nat.digitChar (n % 10)).toNat - 48 := by simp [digitsVal]
        _ = n % 10 := digitChar_val _ (by omega)
        _ = n := by omega
    · rw [if_neg h, digitsVal_append_digit, ih (n / 10) (by omega),
        digitChar_val (n % 10) (by omega)]
      omega

theorem decDigits_injective : Function.Injective decDigits := by
  intro m n h
  have hm := digitsVal_decDigits m
  rw [h, digitsVal_decDigits n] at hm
  exact hm.symm

theorem toDigitsCore_eq_decDigits :
    ∀ (fuel n : Nat) (l : List Char), n < fuel →
      Nat.toDigitsCore 10 fuel n l = decDigits n ++ l := by
  intro fuel
  induction fuel with
  | zero => intro n l h; exact absurd h (Nat.not_lt_zero n)
  | succ f ih =>
    intro n l h
    by_cases h0 : n / 10 = 0
    · rw [decDigits]
      simp [Nat.toDigitsCore, h0]
    · have hlt : n / 10 < f := by omega
      have hstep : Nat.toDigitsCore 10 (f + 1) n l =
          Nat.toDigitsCore 10 f (n / 10) (Nat.digitChar (n % 10) :: l) := by
        simp [Nat.toDigitsCore, h0]
      rw [hstep, ih _ _ hlt]
      conv_rhs => rw [decDigits]
      rw [if_neg h0]
      simp

theorem toString_nat_eq (n : Nat) : toString n = String.mk (decDigits n) := by
  show Nat.repr n = String.mk (decDigits n)
  rw [Nat.repr, Nat.toDigits,
    toDigitsCore_eq_decDigits (n + 1) n [] (Nat.lt_succ_self n)]
  simp [List.asString]

theorem toString_nat_injective (m n : Nat) (h : toString m = toString n) :
    m = n := by
  rw [toString_nat_eq, toString_nat_eq] at h
  have hd : decDigits m = decDigits n := congrArg String.data h
  exact decDigits_injective hd

theorem dupCand_injective (p : String) (i j : Nat)
    (h : dupCand p i = dupCand p j) : i = j := by
  have hd := congrArg String.data h
  simp only [dupCand, String.data_append] at hd
  have h1 := List.append_cancel_right hd
  have h2 := List.append_cancel_left h1
  have h3 : toString (i + 1) = toString (j + 1) := congrArg String.mk h2
  have := toString_nat_injective (i + 1) (j + 1) h3
  omega

theorem fsHas_iff_mem (fs : List String) (p : String) :
    fsHas fs p = true ↔ p ∈ fs := by
  show fs.elem p = true ↔ p ∈ fs
  exact List.elem_iff

theorem handle_duplicate_files_avoids (fs : List String) (p : String) :
    fsHas fs (handle_duplicate_files fs p) = false := by
  unfold handle_duplicate_files
  by_cases hp : fsHas fs p = true
  · simp only [hp, Bool.not_true, Bool.false_eq_true, if_false]
    cases hfind : (List.range (fs.length + 1)).findSome? (dupProbe fs p) with
    | some cand =>
      simp only [hfind]
      obtain ⟨i, hi, hf⟩ := List.exists_of_findSome?_eq_some hfind
      unfold dupProbe at hf
      by_cases hc : fsHas fs (dupCand p i) = true
      · rw [if_pos hc] at hf
        cases hf
      · rw [if_neg hc] at hf
        have hcand : cand = dupCand p i := (Option.some.inj hf).symm
        rw [Bool.not_eq_true] at hc
        rw [hcand]
        exact hc
    | none =>
      exfalso
      rw [List.findSome?_eq_none_iff] at hfind
      have hmem : ∀ i ∈ List.range (fs.length + 1), dupCand p i ∈ fs := by
        intro i hi
        have hfi := hfind i hi
        unfold dupProbe at hfi
        by_cases hc : fsHas fs (dupCand p i) = true
        · exact (fsHas_iff_mem fs (dupCand p i)).mp hc
        · rw [if_neg hc] at hfi
          cases hfi
      have hnodup : ((List.range (fs.length + 1)).map (dupCand p)).Nodup :=
        List.Nodup.map (fun i j hij => dupCand_injective p i j hij)
          (List.nodup_range _)
      have hsub : ((List.range (fs.length + 1)).map (dupCand p)) ⊆ fs := by
        intro x hx
        obtain ⟨i, hi, rfl⟩ := List.mem_map.mp hx
        exact hmem i hi
      have hlen := (List.Nodup.subperm hnodup hsub).length_le
      simp at hlen
  · rw [Bool.not_eq_true] at hp
    simp [hp]

theorem planMovieMains_avoids (fs : List String) :
    ∀ (rest : List MovieFileInfo) (m : List (String × Nat)) (n : Nat)
      (folder mf : String) (e : MovieFileInfo × String),
      e ∈ planMovieMains n folder mf fs m rest → fsHas fs e.2 = false := by
  intro rest
  induction rest with
  | nil => intro m n folder mf e he; cases he
  | cons fi tail ih =>
    intro m n folder mf e he
    simp only [planMovieMains] at he
    rcases List.mem_cons.mp he with h | h
    · rw [h]
      exact handle_duplicate_files_avoids fs _
    · exact ih _ _ _ _ _ h

theorem tvSeasonStep_avoids (fs : List String) (sk sf : String) (acc : TvPlan)
    (sg : Nat × List TvFileInfo)
    (h1 : ∀ e ∈ acc.1, fsHas fs e.2 = false)
    (h2 : ∀ e ∈ acc.2, fsHas fs e.2 = false) :
    (∀ e ∈ (tvSeasonStep fs sk sf acc sg).1, fsHas fs e.2 = false) ∧
      (∀ e ∈ (tvSeasonStep fs sk sf acc sg).2, fsHas fs e.2 = false) := by
  rw [tvSeasonStep_eq]
  constructor
  · intro e he
    rcases List.mem_append.mp he with h | h
    · exact h1 e h
    · obtain ⟨fi, hfi, rfl⟩ := List.mem_map.mp h
      exact handle_duplicate_files_avoids fs _
  · intro e he
    rcases List.mem_append.mp he with h | h
    · exact h2 e h
    · obtain ⟨fi, hfi, rfl⟩ := List.mem_map.mp h
      exact handle_duplicate_files_avoids fs _

theorem tvGroups_foldl_avoids (fs : List String) (td : String) :
    ∀ (gs : SeriesGroups) (acc : TvPlan),
      (∀ e ∈ acc.1, fsHas fs e.2 = false) →
      (∀ e ∈ acc.2, fsHas fs e.2 = false) →
      (∀ e ∈ (gs.foldl
          (fun a g => g.2.foldl (tvSeasonStep fs g.1 (pathJoin td g.1)) a)
          acc).1, fsHas fs e.2 = false) ∧
        (∀ e ∈ (gs.foldl
          (fun a g => g.2.foldl (tvSeasonStep fs g.1 (pathJoin td g.1)) a)
          acc).2, fsHas fs e.2 = false) := by
  intro gs
  induction gs with
  | nil => intro acc h1 h2; exact ⟨h1, h2⟩
  | cons g rest ih =>
    intro acc h1 h2
    rw [List.foldl_cons]
    have hseason : ∀ (seasons : SeasonGroups) (a : TvPlan),
        (∀ e ∈ a.1, fsHas fs e.2 = false) →
        (∀ e ∈ a.2, fsHas fs e.2 = false) →
        (∀ e ∈ (seasons.foldl (tvSeasonStep fs g.1 (pathJoin td g.1)) a).1,
          fsHas fs e.2 = false) ∧
          (∀ e ∈ (seasons.foldl (tvSeasonStep fs g.1 (pathJoin td g.1)) a).2,
            fsHas fs e.2 = false) := by
      intro seasons
      induction seasons with
      | nil => intro a ha1 ha2; exact ⟨ha1, ha2⟩
      | cons sg srest sih =>
        intro a ha1 ha2
        rw [List.foldl_cons]
        have hstep := tvSeasonStep_avoids fs g.1 (pathJoin td g.1) a sg ha1 ha2
        exact sih _ hstep.1 hstep.2
    have hg := hseason g.2 acc h1 h2
    exact ih _ hg.1 hg.2

theorem movieGroupStep_avoids (fs : List String) (td : String)
    (acc : MoviePlan) (g : String × List MovieFileInfo)
    (h1 : ∀ e ∈ acc.1, fsHas fs e.2 = false)
    (h2 : ∀ e ∈ acc.2, fsHas fs e.2 = false) :
    (∀ e ∈ (movieGroupStep fs td acc g).1, fsHas fs e.2 = false) ∧
      (∀ e ∈ (movieGroupStep fs td acc g).2, fsHas fs e.2 = false) := by
  simp only [movieGroupStep, foldl_snoc_snd]
  constructor
  · intro e he
    rcases List.mem_append.mp he with h | h
    · exact h1 e h
    · exact planMovieMains_avoids fs _ _ _ _ _ e h
  · intro e he
    rcases List.mem_append.mp he with h | h
    · exact h2 e h
    · obtain ⟨fi, hfi, rfl⟩ := List.mem_map.mp h
      exact handle_duplicate_files_avoids fs _

theorem movieGroups_foldl_avoids (fs : List String) (td : String) :
    ∀ (mg : MovieGroups) (acc : MoviePlan),
      (∀ e ∈ acc.1, fsHas fs e.2 = false) →
      (∀ e ∈ acc.2, fsHas fs e.2 = false) →
      (∀ e ∈ (mg.foldl (movieGroupStep fs td) acc).1, fsHas fs e.2 = false) ∧
        (∀ e ∈ (mg.foldl (movieGroupStep fs td) acc).2,
          fsHas fs e.2 = false) := by
  intro mg
  induction mg with
  | nil => intro acc h1 h2; exact ⟨h1, h2⟩
  | cons g rest ih =>
    intro acc h1 h2
    rw [List.foldl_cons]
    have hstep := movieGroupStep_avoids fs td acc g h1 h2
    exact ih _ hstep.1 hstep.2

/-- Claim C1, amended: for every run, planning produces exactly one plan
entry per input file (main and extra entry counts sum to the number of
scanned files, for both the series and the movie planner); every planned
target path avoids the paths existing on disk at plan time (the suffix
search always lands on a path absent from the observed filesystem); but
planned paths are not pairwise distinct within a run — two series files
resolving to the same series, season, episode designator, part and
resolution, neither of whose targets exists on disk, receive the identical
target path. -/
theorem c1_amended (groups : SeriesGroups) (mg : MovieGroups) (td : String)
    (fs : List String) :
    (prepare_tv_operations groups td fs).1.length +
        (prepare_tv_operations groups td fs).2.length =
      tvGroupsFileCount groups ∧
      (prepare_file_operations mg td fs).1.length +
          (prepare_file_operations mg td fs).2.length =
        movieGroupsFileCount mg ∧
      (∀ e ∈ (prepare_tv_operations groups td fs).1,
        fsHas fs e.2 = false) ∧
      (∀ e ∈ (prepare_tv_operations groups td fs).2,
        fsHas fs e.2 = false) ∧
      (∀ e ∈ (prepare_file_operations mg td fs).1,
        fsHas fs e.2 = false) ∧
      (∀ e ∈ (prepare_file_operations mg td fs).2,
        fsHas fs e.2 = false) := by
  have htv := tvGroups_foldl_avoids fs td groups ([], [])
    (by intro e he; cases he) (by intro e he; cases he)
  have hmv := movieGroups_foldl_avoids fs td mg ([], [])
    (by intro e he; cases he) (by intro e he; cases he)
  refine ⟨?_, ?_, htv.1, htv.2, hmv.1, hmv.2⟩
  · simpa [prepare_tv_operations] using
      prepare_tv_foldl_len groups td fs ([], [])
  · simpa [prepare_file_operations] using
      prepare_movie_foldl_len mg td fs ([], [])

/-- Witness for c1_amended: with the main target already on disk, the
planner assigns the _1-suffixed path, which does not exist on the observed
filesystem. -/
theorem c1_amended_witness :
    fsHas ["T/Show/Season 01/Show S01E01.mkv"]
        "T/Show/Season 01/Show S01E01_1.mkv" = false :=
  (c1_amended [("Show", [(1, [c1Fi])])] [] "T"
      ["T/Show/Season 01/Show S01E01.mkv"]).2.2.1
    (c1Fi, "T/Show/Season 01/Show S01E01_1.mkv") (by decide)

end JellyfinRenamer
